import Mathlib

/-!
Verification of the cwDnp3 signal-list generator.

This file is a shallow embedding of the classification-and-mirroring core of
the generator, translated from the v3.2 iteration of the tool (the file with
the regex-driven classification logic, functions `processSigFile`,
`isMatchRegex` and `generateListsFile`).  The v2.2 file in the repository is
an earlier iteration of the same tool; the specification describes the
pattern-driven v3.2 design, so the v3.2 file is the one embedded here.

Text is modelled as `List Char`.  Files are lists of lines.  Calls into the
Go regexp library (`regexp.MatchString`) are modelled by an explicit match
oracle of type `MatchFn`; `none` stands for a compile error on an invalid
pattern together with the `false` matched value the library returns in that
case.  The fixed extraction expression
`SIG=@GV\.([\w\d_]+)\s+TYPE=([A-Z]+)` is implemented directly: since the
character classes of adjacent parts are disjoint, the leftmost greedy match
of that expression coincides with maximal-munch scanning at the leftmost
position where the literal head occurs and the whole tail parses.
-/

/-- ASCII word character, the class `[\w\d_]` of the extraction expression
(Go regexp `\w` is `[0-9A-Za-z_]`). -/
def isWordChar (c : Char) : Bool := c.isAlphanum || c = '_'

/-- The class `[A-Z]` of the extraction expression. -/
def isUpperAZ (c : Char) : Bool := 'A' ≤ c && c ≤ 'Z'

/-- The class `\s` of the Go regexp library: `[\t\n\f\r ]`. -/
def isSpaceRE (c : Char) : Bool :=
  c = '\t' || c = '\n' || c = '\x0c' || c = '\r' || c = ' '

/-- White space as decided by Go `unicode.IsSpace`, used by
`strings.TrimSpace`. -/
def goIsSpace (c : Char) : Bool :=
  c = ' ' || c = '\t' || c = '\n' || c = '\x0b' || c = '\x0c' || c = '\r' ||
  c = '\x85' || c = '\xa0' || c = '\u1680' || ('\u2000' ≤ c && c ≤ '\u200a') ||
  c = '\u2028' || c = '\u2029' || c = '\u202f' || c = '\u205f' || c = '\u3000'

/-- Go `strings.TrimSpace` on a line. -/
def trimSpace (s : List Char) : List Char :=
  ((s.dropWhile goIsSpace).reverse.dropWhile goIsSpace).reverse

/-- Go `strings.Contains s sub`: `sub` occurs as a contiguous substring. -/
def goContains : List Char → List Char → Bool
  | s, sub =>
    if sub.isPrefixOf s then true
    else
      match s with
      | [] => false
      | _ :: t => goContains t sub

/-- The literal `SIG=` tested by `strings.HasPrefix` on each trimmed line. -/
def sigLit : List Char := ['S', 'I', 'G', '=']

/-- The literal head `SIG=@GV.` of the extraction expression. -/
def sigGVLit : List Char := ['S', 'I', 'G', '=', '@', 'G', 'V', '.']

/-- The literal `TYPE=` in the middle of the extraction expression. -/
def typeLit : List Char := ['T', 'Y', 'P', 'E', '=']

/-- The namespace marker `@GV.` used to rebuild the canonical full name. -/
def gvLit : List Char := ['@', 'G', 'V', '.']

/-- Parse the tail of the extraction expression after the literal head:
`([\w\d_]+)\s+TYPE=([A-Z]+)`, returning the two capture groups.  Each
quantified class is taken maximal-munch; since the classes at each boundary
are disjoint, this equals the backtracking semantics. -/
def tryParseTail (s : List Char) : Option (List Char × List Char) :=
  let name := s.takeWhile isWordChar
  let s1 := s.dropWhile isWordChar
  let sp := s1.takeWhile isSpaceRE
  let s2 := s1.dropWhile isSpaceRE
  if name.isEmpty then none
  else if sp.isEmpty then none
  else if typeLit.isPrefixOf s2 then
    let ty := (s2.drop typeLit.length).takeWhile isUpperAZ
    if ty.isEmpty then none else some (name, ty)
  else none

/-- `re.FindStringSubmatch` for the fixed extraction expression: scan for the
leftmost position where the literal head occurs and the tail parses, and
return the two capture groups. -/
def findSIG : List Char → Option (List Char × List Char)
  | [] => none
  | c :: cs =>
    if sigGVLit.isPrefixOf (c :: cs) then
      match tryParseTail ((c :: cs).drop sigGVLit.length) with
      | some r => some r
      | none => findSIG cs
    else findSIG cs

/-- Oracle for `regexp.MatchString pat name`: `none` models a compile error
on an invalid pattern (in which case the library also returns a `false`
matched value), `some b` models a successful evaluation. -/
abbrev MatchFn := List Char → List Char → Option Bool

/-- `isMatchRegex` from the source: try each pattern in order; the error
value of `regexp.MatchString` is discarded, so an invalid pattern behaves as
the `false` the library returned; first match returns `true`. -/
def isMatchRegex (M : MatchFn) (name : List Char) (patterns : List (List Char)) : Bool :=
  patterns.any (fun p => (M p name).getD false)

/-- `isMatchRegex` instrumented with the list of warnings the loop body
logs.  The source loop contains no logging call at all, so the warning
component is built solely from what the loop emits: nothing. -/
def isMatchRegexLog (M : MatchFn) (name : List Char) : List (List Char) → Bool × List (List Char)
  | [] => (false, [])
  | p :: ps =>
    if (M p name).getD false then (true, [])
    else isMatchRegexLog M name ps

/-- The `classification` block of the YAML configuration. -/
structure Classification where
  AnalogRegex : List (List Char)
  DigitalRegex : List (List Char)
deriving DecidableEq

/-- The `spares` block of the YAML configuration. -/
structure Spares where
  DO : List Char
  DI : List Char
  AO : List Char
  AI : List Char
deriving DecidableEq

/-- The application configuration (the `app` level of the YAML file is
flattened away; only the fields the core reads are modelled). -/
structure Config where
  classification : Classification
  spares : Spares
deriving DecidableEq

/-- The four global category lists `ListAO, ListAI, ListDO, ListDI`. -/
structure SigLists where
  ListAO : List (List Char)
  ListAI : List (List Char)
  ListDO : List (List Char)
  ListDI : List (List Char)
deriving DecidableEq

/-- The empty state the four lists are reset to at the start of
`processSigFile`. -/
def emptyLists : SigLists := ⟨[], [], [], []⟩

/-- `fmt.Sprintf` with the spare-annotation format: spare text, then the
bare point name in parentheses. -/
def spareAnnot (spare name : List Char) : List Char :=
  spare ++ '(' :: (name ++ [')'])

/-- Family dispatch for analog points:
`strings.Contains(varType, "AA") || strings.Contains(varType, "REAL")`. -/
def analogTag (t : List Char) : Bool :=
  goContains t ['A', 'A'] || goContains t ['R', 'E', 'A', 'L']

/-- Family dispatch for digital points:
`strings.Contains(varType, "LA") || strings.Contains(varType, "BOOL")`. -/
def digitalTag (t : List Char) : Bool :=
  goContains t ['L', 'A'] || goContains t ['B', 'O', 'O', 'L']

/-- One iteration of the scanner loop of `processSigFile`: trim the line,
skip it unless it starts with `SIG=`, extract the capture groups, dispatch
on the type tag and append the real reference and the mirrored spare. -/
def processLine (cfg : Config) (M : MatchFn) (st : SigLists) (raw : List Char) : SigLists :=
  if sigLit.isPrefixOf (trimSpace raw) = false then st
  else
    match findSIG (trimSpace raw) with
    | none => st
    | some (varName, varType) =>
      if analogTag varType then
        if isMatchRegex M varName cfg.classification.AnalogRegex then
          { st with ListAO := st.ListAO ++ [gvLit ++ varName],
                    ListAI := st.ListAI ++ [spareAnnot cfg.spares.AI varName] }
        else
          { st with ListAI := st.ListAI ++ [gvLit ++ varName],
                    ListAO := st.ListAO ++ [spareAnnot cfg.spares.AO varName] }
      else if digitalTag varType then
        if isMatchRegex M varName cfg.classification.DigitalRegex then
          { st with ListDO := st.ListDO ++ [gvLit ++ varName],
                    ListDI := st.ListDI ++ [spareAnnot cfg.spares.DI varName] }
        else
          { st with ListDI := st.ListDI ++ [gvLit ++ varName],
                    ListDO := st.ListDO ++ [spareAnnot cfg.spares.DO varName] }
      else if varType = ['A', 'O'] then
        { st with ListAO := st.ListAO ++ [gvLit ++ varName],
                  ListAI := st.ListAI ++ [spareAnnot cfg.spares.AI varName] }
      else if varType = ['D', 'O'] then
        { st with ListDO := st.ListDO ++ [gvLit ++ varName],
                  ListDI := st.ListDI ++ [spareAnnot cfg.spares.DI varName] }
      else st

/-- `processSigFile` on a file given as its list of lines: reset the four
lists to empty, then scan every line in order. -/
def processSigFile (cfg : Config) (M : MatchFn) (lines : List (List Char)) : SigLists :=
  List.foldl (processLine cfg M) emptyLists lines

set_option linter.unusedVariables false in
/-- `processSigFile` exposed together with the value the four global lists
held when the call started.  The first statement of the function body
reassigns all four globals to empty literals, so the prior value is
discarded before any line is scanned. -/
def processSigFileFrom (prior : SigLists) (cfg : Config) (M : MatchFn) (lines : List (List Char)) : SigLists :=
  List.foldl (processLine cfg M) emptyLists lines

/-- The single quote character used around section titles. -/
def quoteChar : Char := '\x27'

/-- The header line written by `fmt.Fprintf(w, "*LIST %s   '%s'\n", ...)`. -/
def headerLine (code title : List Char) : List Char :=
  ['*', 'L', 'I', 'S', 'T', ' '] ++ code ++ [' ', ' ', ' '] ++ quoteChar :: (title ++ [quoteChar])

/-- The local `write` closure of `generateListsFile`: append to the buffer a
header line, one line per item, and one empty line. -/
def writeList (w : List (List Char)) (code title : List Char) (items : List (List Char)) : List (List Char) :=
  w ++ headerLine code title :: (items ++ [[]])

/-- `generateListsFile` of the v3.2 iteration, as the list of lines written
to `__lists.ini`: the four sections in the order AI, AO, DI, DO. -/
def generateListsFile (st : SigLists) : List (List Char) :=
  writeList
    (writeList
      (writeList
        (writeList [] "32761".toList "ENTRADAS ANALOGICAS DNP".toList st.ListAI)
        "32762".toList "SALIDAS ANALOGICAS DNP".toList st.ListAO)
      "32763".toList "ENTRADAS DIGITALES DNP".toList st.ListDI)
    "32764".toList "SALIDAS DIGITALES DNP".toList st.ListDO

/-- One output section as the specification words it: a header line of the
form `*LIST code   (quoted title)`, one entry per line in accumulator order,
then exactly one blank line. -/
def specListSection (code title : List Char) (items : List (List Char)) : List (List Char) :=
  (['*', 'L', 'I', 'S', 'T', ' '] ++ code ++ [' ', ' ', ' '] ++ quoteChar :: (title ++ [quoteChar]))
    :: (items ++ [[]])

/-- Match oracle used in concrete runs: the pattern `[` is invalid (models a
regexp compile error), any other pattern matches by substring containment. -/
def M0 : MatchFn := fun p n => if p = ['['] then none else some (goContains n p)

/-- Concrete configuration used in concrete runs. -/
def cfg0 : Config :=
  ⟨⟨["LIT_H_H".toList], ["_CMD".toList]⟩,
   ⟨"SPARE_DO".toList, "SPARE_DI".toList, "SPARE_AO".toList, "SPARE_AI".toList⟩⟩

/-- Scenario A input line: an analog point not matched by the patterns. -/
def lineA : List Char := "SIG=@GV.FT041_H_H TYPE=AA".toList

/-- Scenario B input line: a digital command point. -/
def lineB : List Char := "SIG=@GV.VALVE1_CMD TYPE=LA".toList

/-- Scenario C input line: an explicit analog output tag. -/
def lineC : List Char := "SIG=@GV.PUMP2 TYPE=AO".toList

/-- A line matching the extraction expression with an unrecognized tag. -/
def lineZZ : List Char := "SIG=@GV.FOO TYPE=ZZ".toList

/-- Scenario D input line: not a signal declaration. -/
def notesLine : List Char := "NOTES=random text".toList

lemma spareAnnot_ne_gv (spare name : List Char) : spareAnnot spare name ≠ gvLit ++ name := by
  intro h
  have hlen := congrArg List.length h
  simp only [spareAnnot, gvLit, List.length_append, List.length_cons] at hlen
  have h2 : spare.length = 2 := by omega
  obtain ⟨a, b, rfl⟩ := List.length_eq_two.mp h2
  simp [spareAnnot, gvLit] at h

lemma processLine_split (cfg : Config) (M : MatchFn) (st : SigLists) (raw : List Char) :
    processLine cfg M st raw =
      { ListAO := st.ListAO ++ (processLine cfg M emptyLists raw).ListAO,
        ListAI := st.ListAI ++ (processLine cfg M emptyLists raw).ListAI,
        ListDO := st.ListDO ++ (processLine cfg M emptyLists raw).ListDO,
        ListDI := st.ListDI ++ (processLine cfg M emptyLists raw).ListDI } := by
  unfold processLine
  by_cases h1 : sigLit.isPrefixOf (trimSpace raw) = false
  · simp [h1, emptyLists]
  · simp only [if_neg h1]
    cases hf : findSIG (trimSpace raw) with
    | none => simp [emptyLists]
    | some p =>
      obtain ⟨n, t⟩ := p
      cases ha : analogTag t with
      | true =>
        cases hm : isMatchRegex M n cfg.classification.AnalogRegex with
        | true => simp [ha, hm, emptyLists]
        | false => simp [ha, hm, emptyLists]
      | false =>
        cases hd : digitalTag t with
        | true =>
          cases hm : isMatchRegex M n cfg.classification.DigitalRegex with
          | true => simp [ha, hd, hm, emptyLists]
          | false => simp [ha, hd, hm, emptyLists]
        | false =>
          by_cases hao : t = ['A', 'O']
          · subst hao; simp [ha, hd, emptyLists]
          · by_cases hdo : t = ['D', 'O']
            · subst hdo; simp [ha, hd, hao, emptyLists]
            · simp [ha, hd, hao, hdo, emptyLists]

lemma foldl_processLine_split (cfg : Config) (M : MatchFn) :
    ∀ (lines : List (List Char)) (st : SigLists),
      List.foldl (processLine cfg M) st lines =
        { ListAO := st.ListAO ++ (List.foldl (processLine cfg M) emptyLists lines).ListAO,
          ListAI := st.ListAI ++ (List.foldl (processLine cfg M) emptyLists lines).ListAI,
          ListDO := st.ListDO ++ (List.foldl (processLine cfg M) emptyLists lines).ListDO,
          ListDI := st.ListDI ++ (List.foldl (processLine cfg M) emptyLists lines).ListDI }
  | [], st => by simp [emptyLists]
  | l :: ls, st => by
    have h1 := foldl_processLine_split cfg M ls (processLine cfg M st l)
    have h2 := foldl_processLine_split cfg M ls (processLine cfg M emptyLists l)
    have h3 := processLine_split cfg M st l
    simp only [List.foldl_cons]
    rw [h1, h2, h3]
    simp [emptyLists, List.append_assoc]

lemma processLine_empty_mirror (cfg : Config) (M : MatchFn) (raw : List Char) :
    (processLine cfg M emptyLists raw).ListAI.length
        = (processLine cfg M emptyLists raw).ListAO.length ∧
    (processLine cfg M emptyLists raw).ListDI.length
        = (processLine cfg M emptyLists raw).ListDO.length := by
  unfold processLine
  by_cases h1 : sigLit.isPrefixOf (trimSpace raw) = false
  · simp [h1, emptyLists]
  · simp only [if_neg h1]
    cases hf : findSIG (trimSpace raw) with
    | none => simp [emptyLists]
    | some p =>
      obtain ⟨n, t⟩ := p
      cases ha : analogTag t with
      | true =>
        cases hm : isMatchRegex M n cfg.classification.AnalogRegex with
        | true => simp [ha, hm, emptyLists]
        | false => simp [ha, hm, emptyLists]
      | false =>
        cases hd : digitalTag t with
        | true =>
          cases hm : isMatchRegex M n cfg.classification.DigitalRegex with
          | true => simp [ha, hd, hm, emptyLists]
          | false => simp [ha, hd, hm, emptyLists]
        | false =>
          by_cases hao : t = ['A', 'O']
          · subst hao; simp [ha, hd, emptyLists]
          · by_cases hdo : t = ['D', 'O']
            · subst hdo; simp [ha, hd, hao, emptyLists]
            · simp [ha, hd, hao, hdo, emptyLists]

lemma processSigFile_singleton (cfg : Config) (M : MatchFn) (l : List Char) :
    processSigFile cfg M [l] = processLine cfg M emptyLists l := rfl

/-- Claim C1: for every run of processSigFile over any input file and
configuration, the four category lists satisfy len(AI) = len(AO) and
len(DI) = len(DO): each classification step appends one entry to each of
the two lists of its family in the same operation. -/
theorem claim_C1_mirror_invariant (cfg : Config) (M : MatchFn) (lines : List (List Char)) :
    (processSigFile cfg M lines).ListAI.length = (processSigFile cfg M lines).ListAO.length ∧
    (processSigFile cfg M lines).ListDI.length = (processSigFile cfg M lines).ListDO.length := by
  suffices h : ∀ (ls : List (List Char)) (st : SigLists),
      st.ListAI.length = st.ListAO.length → st.ListDI.length = st.ListDO.length →
      (List.foldl (processLine cfg M) st ls).ListAI.length
          = (List.foldl (processLine cfg M) st ls).ListAO.length ∧
      (List.foldl (processLine cfg M) st ls).ListDI.length
          = (List.foldl (processLine cfg M) st ls).ListDO.length by
    exact h lines emptyLists rfl rfl
  intro ls
  induction ls with
  | nil => intro st h1 h2; exact ⟨h1, h2⟩
  | cons l ls ih =>
    intro st h1 h2
    simp only [List.foldl_cons]
    apply ih
    · rw [processLine_split cfg M st l]
      simp [List.length_append, h1, (processLine_empty_mirror cfg M l).1]
    · rw [processLine_split cfg M st l]
      simp [List.length_append, h2, (processLine_empty_mirror cfg M l).2]

/-- Claim C7: the lists produced by processSigFile are the concatenation,
in input order, of the entries contributed by each line on its own: entries
are only ever appended and never sorted, deduplicated or reordered, so the
real entries of each list appear in the relative order of their originating
lines. -/
theorem claim_C7_order_preservation (cfg : Config) (M : MatchFn) (lines : List (List Char)) :
    (processSigFile cfg M lines).ListAO
        = lines.flatMap (fun l => (processSigFile cfg M [l]).ListAO) ∧
    (processSigFile cfg M lines).ListAI
        = lines.flatMap (fun l => (processSigFile cfg M [l]).ListAI) ∧
    (processSigFile cfg M lines).ListDO
        = lines.flatMap (fun l => (processSigFile cfg M [l]).ListDO) ∧
    (processSigFile cfg M lines).ListDI
        = lines.flatMap (fun l => (processSigFile cfg M [l]).ListDI) := by
  induction lines with
  | nil => exact ⟨rfl, rfl, rfl, rfl⟩
  | cons l ls ih =>
    obtain ⟨ihAO, ihAI, ihDO, ihDI⟩ := ih
    have hs := foldl_processLine_split cfg M ls (processLine cfg M emptyLists l)
    refine ⟨?_, ?_, ?_, ?_⟩
    · rw [List.flatMap_cons, ← ihAO]
      simp [processSigFile, List.foldl_cons, List.foldl_nil, hs]
    · rw [List.flatMap_cons, ← ihAI]
      simp [processSigFile, List.foldl_cons, List.foldl_nil, hs]
    · rw [List.flatMap_cons, ← ihDO]
      simp [processSigFile, List.foldl_cons, List.foldl_nil, hs]
    · rw [List.flatMap_cons, ← ihDI]
      simp [processSigFile, List.foldl_cons, List.foldl_nil, hs]

/-- Claim C8: the output-direction decision of isMatchRegex is invariant
under permutation of the configured pattern list. -/
theorem claim_C8_pattern_order_invariance (M : MatchFn) (name : List Char)
    (ps qs : List (List Char)) (h : ps.Perm qs) :
    isMatchRegex M name ps = isMatchRegex M name qs := by
  induction h with
  | nil => rfl
  | cons x _ ih =>
    simp only [isMatchRegex, List.any_cons] at ih ⊢
    rw [ih]
  | swap x y l => simp only [isMatchRegex, List.any_cons, Bool.or_left_comm]
  | trans _ _ ih1 ih2 => exact ih1.trans ih2

theorem claim_C8_pattern_order_invariance_witness :
    isMatchRegex M0 "V_WD".toList ["_CMD".toList, "_WD".toList]
      = isMatchRegex M0 "V_WD".toList ["_WD".toList, "_CMD".toList] :=
  claim_C8_pattern_order_invariance M0 "V_WD".toList
    ["_CMD".toList, "_WD".toList] ["_WD".toList, "_CMD".toList] (by decide)

/-- Claim C9: a line that, after trimming, does not begin with SIG= leaves
all four category lists unchanged. -/
theorem claim_C9_non_sig_line_frame (cfg : Config) (M : MatchFn) (st : SigLists)
    (raw : List Char) (h : sigLit.isPrefixOf (trimSpace raw) = false) :
    processLine cfg M st raw = st := by
  unfold processLine
  rw [if_pos h]

theorem claim_C9_non_sig_line_frame_witness :
    processLine cfg0 M0 emptyLists notesLine = emptyLists :=
  claim_C9_non_sig_line_frame cfg0 M0 emptyLists notesLine (by decide)

/-- Claim C10: processSigFile reassigns all four global lists to empty
before scanning any line, so the result of a call does not depend on the
value the global lists held when the call started. -/
theorem claim_C10_reinitialization (p1 p2 : SigLists) (cfg : Config) (M : MatchFn)
    (lines : List (List Char)) :
    processSigFileFrom p1 cfg M lines = processSigFileFrom p2 cfg M lines ∧
    processSigFileFrom p1 cfg M lines = processSigFile cfg M lines :=
  ⟨rfl, rfl⟩

lemma processLine_eq_branches (cfg : Config) (M : MatchFn) (st : SigLists)
    (raw n t : List Char)
    (hpre : sigLit.isPrefixOf (trimSpace raw) = true)
    (hfind : findSIG (trimSpace raw) = some (n, t)) :
    processLine cfg M st raw =
      (if analogTag t then
        if isMatchRegex M n cfg.classification.AnalogRegex then
          { st with ListAO := st.ListAO ++ [gvLit ++ n],
                    ListAI := st.ListAI ++ [spareAnnot cfg.spares.AI n] }
        else
          { st with ListAI := st.ListAI ++ [gvLit ++ n],
                    ListAO := st.ListAO ++ [spareAnnot cfg.spares.AO n] }
      else if digitalTag t then
        if isMatchRegex M n cfg.classification.DigitalRegex then
          { st with ListDO := st.ListDO ++ [gvLit ++ n],
                    ListDI := st.ListDI ++ [spareAnnot cfg.spares.DI n] }
        else
          { st with ListDI := st.ListDI ++ [gvLit ++ n],
                    ListDO := st.ListDO ++ [spareAnnot cfg.spares.DO n] }
      else if t = ['A', 'O'] then
        { st with ListAO := st.ListAO ++ [gvLit ++ n],
                  ListAI := st.ListAI ++ [spareAnnot cfg.spares.AI n] }
      else if t = ['D', 'O'] then
        { st with ListDO := st.ListDO ++ [gvLit ++ n],
                  ListDI := st.ListDI ++ [spareAnnot cfg.spares.DI n] }
      else st) := by
  unfold processLine
  rw [if_neg (by simp [hpre]), hfind]

lemma isMatchRegexLog_snd (M : MatchFn) (name : List Char) :
    ∀ (ps : List (List Char)), (isMatchRegexLog M name ps).2 = []
  | [] => rfl
  | p :: ps => by
    unfold isMatchRegexLog
    cases hb : (M p name).getD false
    · simp [isMatchRegexLog_snd M name ps]
    · simp

/-- Claim C2 counterexample: the line `SIG=@GV.FOO TYPE=ZZ` begins with
`SIG=` and matches the extraction expression, yet processing it appends
nothing to any of the four lists, contradicting the claim that every
matching line contributes exactly one real entry and one spare entry. -/
theorem claim_C2_counterexample_unrecognized_tag :
    sigLit.isPrefixOf (trimSpace lineZZ) = true ∧
    findSIG (trimSpace lineZZ) = some ("FOO".toList, "ZZ".toList) ∧
    processLine cfg0 M0 emptyLists lineZZ = emptyLists := by decide

/-- Claim C2 amended: every line that begins with `SIG=` after trimming,
matches the extraction expression, and carries a recognized type tag (one
containing AA or REAL, one containing LA or BOOL, or exactly AO or DO)
contributes exactly one real entry to exactly one of the four lists and
exactly one spare entry to the paired list of the same family; a matching
line with any other tag contributes nothing. -/
theorem claim_C2_amended_coverage (cfg : Config) (M : MatchFn) (st : SigLists)
    (raw n t : List Char)
    (hpre : sigLit.isPrefixOf (trimSpace raw) = true)
    (hfind : findSIG (trimSpace raw) = some (n, t))
    (hrec : analogTag t = true ∨ digitalTag t = true ∨ t = ['A', 'O'] ∨ t = ['D', 'O']) :
    processLine cfg M st raw =
        { st with ListAO := st.ListAO ++ [gvLit ++ n],
                  ListAI := st.ListAI ++ [spareAnnot cfg.spares.AI n] } ∨
    processLine cfg M st raw =
        { st with ListAI := st.ListAI ++ [gvLit ++ n],
                  ListAO := st.ListAO ++ [spareAnnot cfg.spares.AO n] } ∨
    processLine cfg M st raw =
        { st with ListDO := st.ListDO ++ [gvLit ++ n],
                  ListDI := st.ListDI ++ [spareAnnot cfg.spares.DI n] } ∨
    processLine cfg M st raw =
        { st with ListDI := st.ListDI ++ [gvLit ++ n],
                  ListDO := st.ListDO ++ [spareAnnot cfg.spares.DO n] } := by
  rw [processLine_eq_branches cfg M st raw n t hpre hfind]
  cases ha : analogTag t with
  | true =>
    cases hm : isMatchRegex M n cfg.classification.AnalogRegex with
    | true => exact Or.inl (by simp [ha, hm])
    | false => exact Or.inr (Or.inl (by simp [ha, hm]))
  | false =>
    cases hd : digitalTag t with
    | true =>
      cases hm : isMatchRegex M n cfg.classification.DigitalRegex with
      | true => exact Or.inr (Or.inr (Or.inl (by simp [ha, hd, hm])))
      | false => exact Or.inr (Or.inr (Or.inr (by simp [ha, hd, hm])))
    | false =>
      rcases hrec with h | h | h | h
      · simp [h] at ha
      · simp [h] at hd
      · subst h
        exact Or.inl (by simp [ha, hd])
      · subst h
        exact Or.inr (Or.inr (Or.inl
          (by simp [ha, hd, (by decide : (['D', 'O'] : List Char) ≠ ['A', 'O'])])))

theorem claim_C2_amended_coverage_witness :
    processLine cfg0 M0 emptyLists lineB =
        { emptyLists with
            ListAO := emptyLists.ListAO ++ [gvLit ++ "VALVE1_CMD".toList],
            ListAI := emptyLists.ListAI ++ [spareAnnot cfg0.spares.AI "VALVE1_CMD".toList] } ∨
    processLine cfg0 M0 emptyLists lineB =
        { emptyLists with
            ListAI := emptyLists.ListAI ++ [gvLit ++ "VALVE1_CMD".toList],
            ListAO := emptyLists.ListAO ++ [spareAnnot cfg0.spares.AO "VALVE1_CMD".toList] } ∨
    processLine cfg0 M0 emptyLists lineB =
        { emptyLists with
            ListDO := emptyLists.ListDO ++ [gvLit ++ "VALVE1_CMD".toList],
            ListDI := emptyLists.ListDI ++ [spareAnnot cfg0.spares.DI "VALVE1_CMD".toList] } ∨
    processLine cfg0 M0 emptyLists lineB =
        { emptyLists with
            ListDI := emptyLists.ListDI ++ [gvLit ++ "VALVE1_CMD".toList],
            ListDO := emptyLists.ListDO ++ [spareAnnot cfg0.spares.DO "VALVE1_CMD".toList] } :=
  claim_C2_amended_coverage cfg0 M0 emptyLists lineB "VALVE1_CMD".toList "LA".toList
    (by decide) (by decide) (Or.inr (Or.inl (by decide)))

/-- Claim C3: for every classified point, the chosen direction list receives
the real canonical reference and the opposite list of the same family
receives the annotated spare placeholder, which is never equal to the real
reference. -/
theorem claim_C3_mirroring (cfg : Config) (M : MatchFn) (st : SigLists)
    (raw n t : List Char)
    (hpre : sigLit.isPrefixOf (trimSpace raw) = true)
    (hfind : findSIG (trimSpace raw) = some (n, t)) :
    (analogTag t = true → isMatchRegex M n cfg.classification.AnalogRegex = true →
      (processLine cfg M st raw).ListAO = st.ListAO ++ [gvLit ++ n] ∧
      (processLine cfg M st raw).ListAI = st.ListAI ++ [spareAnnot cfg.spares.AI n] ∧
      spareAnnot cfg.spares.AI n ≠ gvLit ++ n) ∧
    (analogTag t = true → isMatchRegex M n cfg.classification.AnalogRegex = false →
      (processLine cfg M st raw).ListAI = st.ListAI ++ [gvLit ++ n] ∧
      (processLine cfg M st raw).ListAO = st.ListAO ++ [spareAnnot cfg.spares.AO n] ∧
      spareAnnot cfg.spares.AO n ≠ gvLit ++ n) ∧
    (analogTag t = false → digitalTag t = true →
        isMatchRegex M n cfg.classification.DigitalRegex = true →
      (processLine cfg M st raw).ListDO = st.ListDO ++ [gvLit ++ n] ∧
      (processLine cfg M st raw).ListDI = st.ListDI ++ [spareAnnot cfg.spares.DI n] ∧
      spareAnnot cfg.spares.DI n ≠ gvLit ++ n) ∧
    (analogTag t = false → digitalTag t = true →
        isMatchRegex M n cfg.classification.DigitalRegex = false →
      (processLine cfg M st raw).ListDI = st.ListDI ++ [gvLit ++ n] ∧
      (processLine cfg M st raw).ListDO = st.ListDO ++ [spareAnnot cfg.spares.DO n] ∧
      spareAnnot cfg.spares.DO n ≠ gvLit ++ n) ∧
    (analogTag t = false → digitalTag t = false → t = ['A', 'O'] →
      (processLine cfg M st raw).ListAO = st.ListAO ++ [gvLit ++ n] ∧
      (processLine cfg M st raw).ListAI = st.ListAI ++ [spareAnnot cfg.spares.AI n] ∧
      spareAnnot cfg.spares.AI n ≠ gvLit ++ n) ∧
    (analogTag t = false → digitalTag t = false → t = ['D', 'O'] →
      (processLine cfg M st raw).ListDO = st.ListDO ++ [gvLit ++ n] ∧
      (processLine cfg M st raw).ListDI = st.ListDI ++ [spareAnnot cfg.spares.DI n] ∧
      spareAnnot cfg.spares.DI n ≠ gvLit ++ n) := by
  rw [processLine_eq_branches cfg M st raw n t hpre hfind]
  refine ⟨fun ha hm => ?_, fun ha hm => ?_, fun ha hd hm => ?_, fun ha hd hm => ?_,
    fun ha hd hao => ?_, fun ha hd hdo => ?_⟩
  · simp [ha, hm, spareAnnot_ne_gv]
  · simp [ha, hm, spareAnnot_ne_gv]
  · simp [ha, hd, hm, spareAnnot_ne_gv]
  · simp [ha, hd, hm, spareAnnot_ne_gv]
  · subst hao
    simp [ha, hd, spareAnnot_ne_gv]
  · subst hdo
    simp [ha, hd, (by decide : (['D', 'O'] : List Char) ≠ ['A', 'O']), spareAnnot_ne_gv]

theorem claim_C3_mirroring_witness :
    (processLine cfg0 M0 emptyLists lineA).ListAI
        = emptyLists.ListAI ++ [gvLit ++ "FT041_H_H".toList] ∧
    (processLine cfg0 M0 emptyLists lineA).ListAO
        = emptyLists.ListAO ++ [spareAnnot cfg0.spares.AO "FT041_H_H".toList] ∧
    spareAnnot cfg0.spares.AO "FT041_H_H".toList ≠ gvLit ++ "FT041_H_H".toList :=
  (claim_C3_mirroring cfg0 M0 emptyLists lineA "FT041_H_H".toList "AA".toList
    (by decide) (by decide)).2.1 (by decide) (by decide)

/-- Claim C4: a point whose type tag is exactly AO (resp. DO) is
unconditionally classified as an analog (resp. digital) output: the real
reference goes to the output list, the annotated spare to the input list of
the same family, the other family is untouched, and the result does not
depend on the configured pattern lists or on the regexp oracle at all. -/
theorem claim_C4_explicit_output_tags (cfg : Config) (M : MatchFn) (st : SigLists)
    (raw n t : List Char)
    (hpre : sigLit.isPrefixOf (trimSpace raw) = true)
    (hfind : findSIG (trimSpace raw) = some (n, t)) :
    (t = ['A', 'O'] →
      processLine cfg M st raw =
          { st with ListAO := st.ListAO ++ [gvLit ++ n],
                    ListAI := st.ListAI ++ [spareAnnot cfg.spares.AI n] } ∧
      ∀ (cl2 : Classification) (M2 : MatchFn),
        processLine ⟨cl2, cfg.spares⟩ M2 st raw = processLine cfg M st raw) ∧
    (t = ['D', 'O'] →
      processLine cfg M st raw =
          { st with ListDO := st.ListDO ++ [gvLit ++ n],
                    ListDI := st.ListDI ++ [spareAnnot cfg.spares.DI n] } ∧
      ∀ (cl2 : Classification) (M2 : MatchFn),
        processLine ⟨cl2, cfg.spares⟩ M2 st raw = processLine cfg M st raw) := by
  constructor
  · intro ht
    subst ht
    have h1 := processLine_eq_branches cfg M st raw n ['A', 'O'] hpre hfind
    have hA : analogTag ['A', 'O'] = false := by decide
    have hD : digitalTag ['A', 'O'] = false := by decide
    constructor
    · rw [h1]
      simp [hA, hD]
    · intro cl2 M2
      have h2 := processLine_eq_branches ⟨cl2, cfg.spares⟩ M2 st raw n ['A', 'O'] hpre hfind
      rw [h1, h2]
      simp [hA, hD]
  · intro ht
    subst ht
    have h1 := processLine_eq_branches cfg M st raw n ['D', 'O'] hpre hfind
    have hA : analogTag ['D', 'O'] = false := by decide
    have hD : digitalTag ['D', 'O'] = false := by decide
    have hne : (['D', 'O'] : List Char) ≠ ['A', 'O'] := by decide
    constructor
    · rw [h1]
      simp [hA, hD, hne]
    · intro cl2 M2
      have h2 := processLine_eq_branches ⟨cl2, cfg.spares⟩ M2 st raw n ['D', 'O'] hpre hfind
      rw [h1, h2]
      simp [hA, hD, hne]

theorem claim_C4_explicit_output_tags_witness :
    processLine cfg0 M0 emptyLists lineC =
        { emptyLists with
            ListAO := emptyLists.ListAO ++ [gvLit ++ "PUMP2".toList],
            ListAI := emptyLists.ListAI ++ [spareAnnot cfg0.spares.AI "PUMP2".toList] } ∧
    processLine ⟨⟨[], []⟩, cfg0.spares⟩ M0 emptyLists lineC
        = processLine cfg0 M0 emptyLists lineC :=
  ⟨((claim_C4_explicit_output_tags cfg0 M0 emptyLists lineC "PUMP2".toList "AO".toList
      (by decide) (by decide)).1 (by decide)).1,
   ((claim_C4_explicit_output_tags cfg0 M0 emptyLists lineC "PUMP2".toList "AO".toList
      (by decide) (by decide)).1 (by decide)).2 ⟨[], []⟩ M0⟩

/-- Claim C5 counterexample: with the invalid pattern first in the list, the
run completes and a later valid pattern still matches, but the warning list
produced by the matching loop is empty — the source ignores the error of
regexp.MatchString and logs nothing — contradicting the claim that a
warning is logged for the invalid pattern. -/
theorem claim_C5_counterexample_no_warning :
    M0 ['['] "VALVE1_CMD".toList = none ∧
    isMatchRegexLog M0 "VALVE1_CMD".toList [['['], "_CMD".toList] = (true, []) := by decide

/-- Claim C5 amended: an invalid (uncompilable) classification pattern does
not abort the run: it behaves as an unconditional non-match, evaluation
continues with the remaining patterns (silently: no warning is logged), and
a point matched by a later valid pattern is still classified as output. -/
theorem claim_C5_amended_invalid_nonmatch (M : MatchFn) (name p : List Char)
    (ps qs : List (List Char)) (hinv : M p name = none) :
    isMatchRegex M name (ps ++ p :: qs) = isMatchRegex M name (ps ++ qs) ∧
    (isMatchRegexLog M name (ps ++ p :: qs)).2 = [] ∧
    (isMatchRegex M name qs = true → isMatchRegex M name (ps ++ p :: qs) = true) := by
  refine ⟨?_, isMatchRegexLog_snd M name (ps ++ p :: qs), ?_⟩
  · simp [isMatchRegex, List.any_append, List.any_cons, hinv]
  · intro hq
    simp [isMatchRegex, List.any_append, List.any_cons, hinv] at hq ⊢
    simp [hq]

theorem claim_C5_amended_invalid_nonmatch_witness :
    isMatchRegex M0 "VALVE1_CMD".toList ([] ++ ['['] :: ["_CMD".toList])
        = isMatchRegex M0 "VALVE1_CMD".toList ([] ++ ["_CMD".toList]) ∧
    (isMatchRegexLog M0 "VALVE1_CMD".toList ([] ++ ['['] :: ["_CMD".toList])).2 = [] ∧
    (isMatchRegex M0 "VALVE1_CMD".toList ["_CMD".toList] = true →
      isMatchRegex M0 "VALVE1_CMD".toList ([] ++ ['['] :: ["_CMD".toList]) = true) :=
  claim_C5_amended_invalid_nonmatch M0 "VALVE1_CMD".toList ['['] [] ["_CMD".toList]
    (by decide)

/-- Claim C6: the writer serializes exactly four sections in the fixed
order analog inputs, analog outputs, digital inputs, digital outputs, each
introduced by a header line with its fixed numeric code and title, followed
by one entry per line in accumulator order, followed by exactly one blank
line. -/
theorem claim_C6_writer_format (st : SigLists) :
    generateListsFile st =
      specListSection "32761".toList "ENTRADAS ANALOGICAS DNP".toList st.ListAI ++
      specListSection "32762".toList "SALIDAS ANALOGICAS DNP".toList st.ListAO ++
      specListSection "32763".toList "ENTRADAS DIGITALES DNP".toList st.ListDI ++
      specListSection "32764".toList "SALIDAS DIGITALES DNP".toList st.ListDO := by
  simp [generateListsFile, writeList, specListSection, headerLine, List.append_assoc]
